import Mathlib

/-!
Verification development for the Uptane/TUF repository verifier
(`src/uptane/tufrepository.cc`).

The C++ class `Uptane::TufRepository` is shallowly embedded: its mutable
members (`keys_`, `thresholds_`, `timestamp_signed_`, `targets_`) become the
fields of `Uptane.RepoState`; the filesystem and the HTTP transport become
explicit state (`Uptane.World.files`, `Uptane.World.fetches`); C++ exceptions
become `Except Uptane.Err`, with the crucial twist that an escaping exception
does NOT roll back member mutations, so every stateful operation returns
`Except Err A × World` and the world component is meaningful on the error
path as well.

External collaborators that are out of scope for the core (the HTTP client,
`Crypto::VerifySignature`, `Hasher::matchWith`, jsoncpp's serialization of a
`Json::Value` to a stream) are abstracted as the pure functions of
`Uptane.Env`; the verifier never inspects their internals, only their
results.  JSON documents are flattened to the fields the verifier actually
reads (`Uptane.SignedPart`, `Uptane.Doc`); association lists model
`std::map` / JSON objects, with `mapInsert` reproducing `std::map::insert`
(which keeps an existing binding) and `mapSet` reproducing assignment
through `operator[]` (which overwrites), and `bracketInt` reproducing the
default-inserting read `thresholds_[role]`.
-/

deriving instance DecidableEq for Except

namespace Uptane

/-- A public key as stored in `keys_`: `PublicKey(keyval.public, keytype)`. -/
structure PublicKey where
  value : String
  keytype : String
deriving DecidableEq

/-- One element of a document's `signatures` array: `{keyid, method, sig}`. -/
structure Sig where
  keyid : String
  method : String
  sig : String
deriving DecidableEq

/-- One entry of a root document's `signed.keys` object. -/
structure KeyEntry where
  keytype : String
  keyvalPublic : String
deriving DecidableEq

/-- The hash algorithms `Hasher` supports. -/
inductive HashAlg where
  | sha512
  | sha256
deriving DecidableEq

/-- One entry of a targets document's `signed.targets` object. -/
structure TargetEntry where
  custom : String
  length : Nat
  sha512 : Option String
  sha256 : Option String
deriving DecidableEq

/-- The fields of a document's `signed` subtree that the verifier reads.
Role-specific fields are simply empty for roles that lack them. -/
structure SignedPart where
  typ : String
  version : Int
  keys : List (String × KeyEntry)
  roles : List (String × Int)
  meta : List String
  targets : List (String × TargetEntry)
deriving DecidableEq

/-- A signed role document `{signed, signatures}`.  `canonical` is the byte
string `Json::FastWriter().write(tuf_signed["signed"])` used as the
signature message; it is carried as an opaque field of the document. -/
structure Doc where
  signedPart : SignedPart
  signatures : List Sig
  canonical : String
deriving DecidableEq

/-- A target descriptor, `Uptane::Target(custom, filename, length, hash)`. -/
structure Target where
  custom : String
  filename : String
  length : Nat
  hash : Option (HashAlg × String)
deriving DecidableEq

/-- The exception taxonomy of the verifier. -/
inductive Err where
  | securityException (repo msg : String)
  | illegalThreshold (repo msg : String)
  | oversizedTarget (repo : String)
  | targetHashMismatch (repo : String)
deriving DecidableEq

/-- A record of one network request: `http_.getJson` or `http_.get`.  The
path is relative to `base_url_`, which every request prefixes alike. -/
inductive Fetch where
  | json (path : String)
  | bytes (path : String)
deriving DecidableEq

/-- The mutable members of `TufRepository`: `keys_`, `thresholds_`,
`timestamp_signed_` (of which only `["version"]` is ever read) and
`targets_`. -/
structure RepoState where
  keys : List (String × PublicKey)
  thresholds : List (String × Int)
  timestampVersion : Int
  targets : List Target
deriving DecidableEq

/-- The full mutable world: the repository members, the files on disk
(path to contents) and the trace of network fetches issued so far. -/
structure World where
  repo : RepoState
  files : List (String × String)
  fetches : List Fetch
deriving DecidableEq

/-- The pure external collaborators: the HTTP transport (a fixed server),
`Crypto::VerifySignature(key, sig, message)`, `Hasher::matchWith` and the
stream serialization `file << content` of a document. -/
structure Env where
  fetchJson : String → Doc
  fetchBytes : String → String
  verifySig : PublicKey → String → String → Bool
  hashMatch : Option (HashAlg × String) → String → Bool
  render : Doc → String

/-- Construction parameters: `name_`, `config.uptane.metadata_path` and
`base_url_`.  `path_` is `metadataPath ++ "/" ++ name`. -/
structure Cfg where
  name : String
  metadataPath : String
  baseUrl : String
deriving DecidableEq

/-- Association-list lookup, the read side of `std::map`. -/
def lookup {α : Type} : List (String × α) → String → Option α
  | [], _ => none
  | (k', v) :: rest, k => if k' = k then some v else lookup rest k

/-- `std::map::count(k) != 0`. -/
def contains {α : Type} (m : List (String × α)) (k : String) : Bool :=
  (lookup m k).isSome

/-- `std::map::insert`: keeps an existing binding for the key. -/
def mapInsert {α : Type} : List (String × α) → String → α → List (String × α)
  | [], k, v => [(k, v)]
  | (k', v') :: rest, k, v =>
    if k' = k then (k', v') :: rest else (k', v') :: mapInsert rest k v

/-- Assignment through `std::map::operator[]`: overwrites an existing
binding, inserts otherwise. -/
def mapSet {α : Type} : List (String × α) → String → α → List (String × α)
  | [], k, v => [(k, v)]
  | (k', v') :: rest, k, v =>
    if k' = k then (k, v) :: rest else (k', v') :: mapSet rest k v

/-- The default-inserting read `thresholds_[role]`: yields the stored value,
or value-initializes the mapped integer to `0` and inserts it. -/
def bracketInt (m : List (String × Int)) (k : String) : Int × List (String × Int) :=
  match lookup m k with
  | some v => (v, m)
  | none => (0, m ++ [(k, 0)])

/-- `boost::algorithm::to_lower_copy` / `std::transform(..., ::tolower)`. -/
def lowerStr (s : String) : String := String.mk (s.data.map Char.toLower)

/-- Modelled from the spec: the constants `kMinSignatures = 1` and
`kMaxSignatures = 1000` are declared in `uptane/tufrepository.h`, which is
not under `src/`; the spec's §6 gives their values. -/
def kMinSignatures : Int := 1

/-- Modelled from the spec: see `kMinSignatures`. -/
def kMaxSignatures : Int := 1000

/-- The comparison `tuf_signed["signatures"].size() < thresholds_[role]`:
`size()` is the 32-bit unsigned `Json::ArrayIndex`, so the usual arithmetic
conversions compare both operands as 32-bit unsigned values. -/
def ltUnsigned (n : Nat) (t : Int) : Bool :=
  ((n % 4294967296 : Nat) : Int) < t % 4294967296

/-- `TufRepository::getJSON`: issue `http_.getJson(base_url_ + "/" + role)`
and record the fetch. -/
def getJSON (env : Env) (role : String) (w : World) : Doc × World :=
  (env.fetchJson role, { w with fetches := w.fetches ++ [Fetch.json role] })

/-- The signature loop of `TufRepository::verifyRole`: normalize `method`,
reject unsupported methods, reject unknown `keyid`s, verify each signature
against the canonical bytes; the first failure throws.  The loop reads
`keys_` but never mutates any member. -/
def checkSigs (env : Env) (n : String) (canonical : String)
    (keys : List (String × PublicKey)) : List Sig → Except Err Unit
  | [] => .ok ()
  | s :: rest =>
    if ¬ (lowerStr s.method = "rsassa-pss" ∨ lowerStr s.method = "ed25519") then
      .error (.securityException n ("Unsupported sign method: " ++ s.method))
    else
      match lookup keys s.keyid with
      | none => .error (.securityException n ("Couldn't find a key: " ++ s.keyid))
      | some key =>
        if env.verifySig key s.sig canonical then
          checkSigs env n canonical keys rest
        else
          .error (.securityException n "Invalid signature, verification failed")

/-- `TufRepository::verifyRole`.  Note that `thresholds_[role]` is the
default-inserting `std::map::operator[]`, evaluated only when the
signatures array is non-empty; the inserted `(role, 0)` entry survives in
`thresholds_` whatever the outcome. -/
def verifyRole (env : Env) (n : String) (d : Doc) (w : World) :
    Except Err Unit × World :=
  if d.signatures.length = 0 then
    (.error (.securityException n "Missing signatures, verification failed"), w)
  else if ltUnsigned d.signatures.length
      (bracketInt w.repo.thresholds (lowerStr d.signedPart.typ)).1 then
    (.error (.securityException n
        "Signatures count is smaller then threshold, verification failed"),
     { w with repo := { w.repo with
        thresholds := (bracketInt w.repo.thresholds (lowerStr d.signedPart.typ)).2 } })
  else
    (checkSigs env n d.canonical w.repo.keys d.signatures,
     { w with repo := { w.repo with
        thresholds := (bracketInt w.repo.thresholds (lowerStr d.signedPart.typ)).2 } })

/-- The path `saveRole` writes to: `path_ / name_ / (role + ".json")`, i.e.
`<metadata_path>/<name>/<name>/<role>.json` (note the doubled name: `path_`
is already `<metadata_path>/<name>`). -/
def saveRolePath (cfg : Cfg) (role : String) : String :=
  cfg.metadataPath ++ "/" ++ cfg.name ++ "/" ++ cfg.name ++ "/" ++ role ++ ".json"

/-- The path the constructor reads `root.json` from: `path_ / "root.json"`,
i.e. `<metadata_path>/<name>/root.json`. -/
def rootLoadPath (cfg : Cfg) : String :=
  cfg.metadataPath ++ "/" ++ cfg.name ++ "/root.json"

/-- `TufRepository::saveRole`: serialize the whole document and write it at
`saveRolePath` for the lowercased `_type`. -/
def saveRole (env : Env) (cfg : Cfg) (d : Doc) (w : World) : World :=
  { w with files := (mapSet w.files
      (saveRolePath cfg (lowerStr d.signedPart.typ)) (env.render d)) }

/-- `TufRepository::updateRole`: fetch, verify, save, return the content. -/
def updateRole (env : Env) (cfg : Cfg) (role : String) (w : World) :
    Except Err Doc × World :=
  match getJSON env role w with
  | (content, w1) =>
    match verifyRole env cfg.name content w1 with
    | (.error e, w2) => (.error e, w2)
    | (.ok _, w2) => (.ok content, saveRole env cfg content w2)

/-- The key loop of `TufRepository::initRoot`: each valid key is inserted
into `keys_` (`std::map::insert`, so an existing keyid keeps its old key)
before the next entry is examined; an unsupported keytype throws, leaving
the insertions made so far in place. -/
def initKeys (n : String) (keys : List (String × PublicKey)) :
    List (String × KeyEntry) → Except Err Unit × List (String × PublicKey)
  | [] => (.ok (), keys)
  | (kid, ke) :: rest =>
    if ¬ (lowerStr ke.keytype = "rsa" ∨ lowerStr ke.keytype = "ed25519") then
      (.error (.securityException n ("Unsupported key type: " ++ ke.keytype)), keys)
    else
      initKeys n (mapInsert keys kid ⟨ke.keyvalPublic, ke.keytype⟩) rest

/-- The role loop of `TufRepository::initRoot`: each in-bounds threshold is
assigned into `thresholds_` through `operator[]` (overwriting) before the
next entry; an out-of-bounds threshold throws, leaving prior assignments. -/
def initRoles (n : String) (thr : List (String × Int)) :
    List (String × Int) → Except Err Unit × List (String × Int)
  | [] => (.ok (), thr)
  | (role, t) :: rest =>
    if t < kMinSignatures then
      (.error (.illegalThreshold n
        ("The role " ++ role ++ " had an illegal signature threshold.")), thr)
    else if kMaxSignatures < t then
      (.error (.illegalThreshold n
        "root.json contains a role that requires too many signatures"), thr)
    else
      initRoles n (mapSet thr role t) rest

/-- `TufRepository::initRoot`: run the key loop over `signed.keys` against
the live `keys_`, then the role loop over `signed.roles` against the live
`thresholds_`.  Both loops mutate the members in place as they go. -/
def initRoot (cfg : Cfg) (content : Doc) (w : World) : Except Err Unit × World :=
  match initKeys cfg.name w.repo.keys content.signedPart.keys with
  | (.error e, ks) =>
    (.error e, { w with repo := { w.repo with keys := ks } })
  | (.ok _, ks) =>
    match initRoles cfg.name w.repo.thresholds content.signedPart.roles with
    | (res, ths) =>
      (res, { w with repo := { w.repo with keys := ks, thresholds := ths } })

/-- `TufRepository::updateRoot`: fetch `root.json`, `initRoot` it, verify it
(under the just-merged keys), save it. -/
def updateRoot (env : Env) (cfg : Cfg) (w : World) : Except Err Unit × World :=
  match getJSON env "root.json" w with
  | (content, w1) =>
    match initRoot cfg content w1 with
    | (.error e, w2) => (.error e, w2)
    | (.ok _, w2) =>
      match verifyRole env cfg.name content w2 with
      | (.error e, w3) => (.error e, w3)
      | (.ok _, w3) => (.ok (), saveRole env cfg content w3)

/-- `TufRepository::checkTimestamp`: update the `timestamp` role, compute
whether the fetched version is strictly newer than the remembered one, then
unconditionally overwrite `timestamp_signed_` with the fetched document. -/
def checkTimestamp (env : Env) (cfg : Cfg) (w : World) : Except Err Bool × World :=
  match updateRole env cfg "timestamp.json" w with
  | (.error e, w1) => (.error e, w1)
  | (.ok content, w1) =>
    (.ok (content.signedPart.version > w1.repo.timestampVersion),
     { w1 with repo := { w1.repo with
        timestampVersion := content.signedPart.version } })

/-- The path `saveTarget` writes to: `path_ / name_ / "targets" / filename`. -/
def targetPath (cfg : Cfg) (filename : String) : String :=
  cfg.metadataPath ++ "/" ++ cfg.name ++ "/" ++ cfg.name ++ "/targets/" ++ filename

/-- `TufRepository::saveTarget`: for a positive declared length, download
the blob, reject oversize then hash mismatch, and write the file; in every
non-throwing path the target is appended to `targets_`. -/
def saveTarget (env : Env) (cfg : Cfg) (t : Target) (w : World) :
    Except Err Unit × World :=
  if 0 < t.length then
    let content := env.fetchBytes t.filename
    let w1 : World := { w with fetches := w.fetches ++ [Fetch.bytes t.filename] }
    if t.length < content.length then
      (.error (.oversizedTarget cfg.name), w1)
    else if ¬ env.hashMatch t.hash content then
      (.error (.targetHashMismatch cfg.name), w1)
    else
      (.ok (), { w1 with
        files := mapSet w1.files (targetPath cfg t.filename) content,
        repo := { w1.repo with targets := w1.repo.targets ++ [t] } })
  else
    (.ok (), { w with repo := { w.repo with targets := w.repo.targets ++ [t] } })

/-- The hash selection of `refresh`'s targets loop: a default `Hasher` is
replaced by sha512 when present, else sha256 when present. -/
def mkHash (te : TargetEntry) : Option (HashAlg × String) :=
  match te.sha512 with
  | some h => some (HashAlg.sha512, h)
  | none =>
    match te.sha256 with
    | some h => some (HashAlg.sha256, h)
    | none => none

/-- The inner loop of `refresh` over `signed.targets` of the targets role:
build each `Target` and `saveTarget` it. -/
def processTargets (env : Env) (cfg : Cfg) :
    List (String × TargetEntry) → World → Except Err Unit × World
  | [], w => (.ok (), w)
  | (tname, te) :: rest, w =>
    match saveTarget env cfg ⟨te.custom, tname, te.length, mkHash te⟩ w with
    | (.error e, w1) => (.error e, w1)
    | (.ok _, w1) => processTargets env cfg rest w1

/-- The loop of `refresh` over the (possibly root-stripped) `snapshot.meta`
member names: update each role, and ingest the targets map when the role is
`targets.json`. -/
def processRoles (env : Env) (cfg : Cfg) :
    List String → World → Except Err Unit × World
  | [], w => (.ok (), w)
  | r :: rest, w =>
    match updateRole env cfg r w with
    | (.error e, w1) => (.error e, w1)
    | (.ok content, w1) =>
      if r = "targets.json" then
        match processTargets env cfg content.signedPart.targets w1 with
        | (.error e, w2) => (.error e, w2)
        | (.ok _, w2) => processRoles env cfg rest w2
      else
        processRoles env cfg rest w1

/-- The body of `refresh` past a fresh timestamp (lines 134-156 of
`tufrepository.cc`): update `snapshot.json`; if its `meta` lists
`root.json`, run `initRoot(updateRole("root.json"))` first — note the C++
evaluation order: the argument `updateRole` (fetch, verify under the
*current* trust, save) runs before `initRoot` ingests the new keys — and
strip `root.json` from the work list; then process the remaining roles. -/
def snapshotStep (env : Env) (cfg : Cfg) (w1 : World) : Except Err Unit × World :=
  match updateRole env cfg "snapshot.json" w1 with
  | (.error e, w2) => (.error e, w2)
  | (.ok content, w2) =>
    if content.signedPart.meta.contains "root.json" then
      match updateRole env cfg "root.json" w2 with
      | (.error e, w3) => (.error e, w3)
      | (.ok rootContent, w3) =>
        match initRoot cfg rootContent w3 with
        | (.error e, w4) => (.error e, w4)
        | (.ok _, w4) =>
          processRoles env cfg
            (content.signedPart.meta.filter (fun r => r ≠ "root.json")) w4
    else
      processRoles env cfg content.signedPart.meta w2

/-- `TufRepository::refresh`: clear `targets_`; if the timestamp is new,
run the snapshot step, else return. -/
def refresh (env : Env) (cfg : Cfg) (w : World) : Except Err Unit × World :=
  match checkTimestamp env cfg
      { w with repo := { w.repo with targets := [] } } with
  | (.error e, w1) => (.error e, w1)
  | (.ok isNew, w1) =>
    if isNew then
      snapshotStep env cfg w1
    else
      (.ok (), w1)

/-- Left-biased choice on options, used to state the merge behaviour of
`std::map::insert` and `operator[]`. -/
def orD {α : Type} : Option α → Option α → Option α
  | some x, _ => some x
  | none, b => b

/-- The public key a root document's `signed.keys` entry would construct,
as `initRoot` builds it: `PublicKey(keyval.public, keytype)`. -/
def pkOf (entries : List (String × KeyEntry)) (kid : String) : Option PublicKey :=
  (lookup entries kid).map (fun ke => PublicKey.mk ke.keyvalPublic ke.keytype)

/-! ### Concrete fixtures used by counterexamples and witnesses -/

/-- An inert document, returned by fixture servers for unknown paths. -/
def doc0 : Doc := ⟨⟨"", 0, [], [], [], []⟩, [], ""⟩

/-- A fixture environment: the given server, empty target bodies, all
signatures and hashes accepted, serialization by canonical bytes. -/
def mkEnv (f : String → Doc) : Env :=
  ⟨f, fun _ => "", fun _ _ _ => true, fun _ _ => true, fun d => d.canonical⟩

/-- The fixture trusted key. -/
def key1 : PublicKey := ⟨"pub1", "ed25519"⟩

/-- A fixture signature by `k1`. -/
def sigK1 : Sig := ⟨"k1", "ed25519", "s1"⟩

/-- The fixture repository configuration. -/
def cfgD : Cfg := ⟨"director", "meta", "url"⟩

/-- A fixture environment whose server is never consulted. -/
def env0 : Env := mkEnv (fun _ => doc0)

/-- An empty starting world. -/
def w0 : World := ⟨⟨[], [], 0, []⟩, [], []⟩

/-- A world trusting `k1` with threshold 2 for `targets`. -/
def wC1 : World := ⟨⟨[("k1", key1)], [("targets", 2)], 0, []⟩, [], []⟩

/-- A targets document carrying the same `k1` signature twice. -/
def docC1 : Doc := ⟨⟨"Targets", 1, [], [], [], []⟩, [sigK1, sigK1], "c1"⟩

/-- A root document whose second key entry has an unsupported keytype. -/
def docC2 : Doc :=
  ⟨⟨"Root", 1, [("a", ⟨"RSA", "pa"⟩), ("b", ⟨"dsa", "pb"⟩)], [], [], []⟩, [], "c2"⟩

/-- The four standard roles at threshold 1. -/
def roles1 : List (String × Int) :=
  [("root", 1), ("timestamp", 1), ("snapshot", 1), ("targets", 1)]

/-- A world trusting `k1` for all four roles at threshold 1. -/
def wAll : World := ⟨⟨[("k1", key1)], roles1, 0, []⟩, [], []⟩

/-- A timestamp document at version 1 signed by `k1`. -/
def tsDocV1 : Doc := ⟨⟨"Timestamp", 1, [], [], [], []⟩, [sigK1], "ts1"⟩

/-- A snapshot whose `meta` lists only `root.json`. -/
def snapRootOnly : Doc := ⟨⟨"Snapshot", 1, [], [], ["root.json"], []⟩, [sigK1], "sn1"⟩

/-- A rotated root: it declares (only) the fresh key `k2` and is signed
(only) by `k2`, so it validates under the keys it itself declares but not
under the pre-rotation trust. -/
def rootSelfSigned : Doc :=
  ⟨⟨"Root", 2, [("k2", ⟨"ed25519", "pub2"⟩)], roles1, [], []⟩,
   [⟨"k2", "ed25519", "s2"⟩], "rt2"⟩

/-- The server for the C3 counterexample. -/
def fetchC3 : String → Doc := fun r =>
  if r = "timestamp.json" then tsDocV1
  else if r = "snapshot.json" then snapRootOnly
  else if r = "root.json" then rootSelfSigned
  else doc0

/-- The C3 counterexample environment. -/
def envC3 : Env := mkEnv fetchC3

/-- A root document signed by the already-trusted `k1`. -/
def rootK1 : Doc :=
  ⟨⟨"Root", 2, [("k1", ⟨"ed25519", "pub1"⟩)], roles1, [], []⟩, [sigK1], "rt1"⟩

/-- A snapshot whose `meta` lists `root.json` and `targets.json`. -/
def snapRootTargets : Doc :=
  ⟨⟨"Snapshot", 1, [], [], ["root.json", "targets.json"], []⟩, [sigK1], "sn2"⟩

/-- A targets document with a single zero-length target `f1`. -/
def targZero : Doc :=
  ⟨⟨"Targets", 1, [], [], [], [("f1", ⟨"c", 0, none, none⟩)]⟩, [sigK1], "tg1"⟩

/-- The server for the C3 witness: a full happy refresh with rotation. -/
def fetchC3w : String → Doc := fun r =>
  if r = "timestamp.json" then tsDocV1
  else if r = "snapshot.json" then snapRootTargets
  else if r = "root.json" then rootK1
  else if r = "targets.json" then targZero
  else doc0

/-- The C3 witness environment. -/
def envC3w : Env := mkEnv fetchC3w

/-- A snapshot whose `meta` lists only `targets.json`. -/
def snapTargetsOnly : Doc :=
  ⟨⟨"Snapshot", 1, [], [], ["targets.json"], []⟩, [sigK1], "sn3"⟩

/-- The server for the C4 scenario: one new snapshot with one zero-length
target, then never changing again. -/
def fetchC4 : String → Doc := fun r =>
  if r = "timestamp.json" then tsDocV1
  else if r = "snapshot.json" then snapTargetsOnly
  else if r = "targets.json" then targZero
  else doc0

/-- The C4 environment. -/
def envC4 : Env := mkEnv fetchC4

/-- A timestamp document at version 3 signed by `k1`. -/
def tsDocV3 : Doc := ⟨⟨"Timestamp", 3, [], [], [], []⟩, [sigK1], "ts3"⟩

/-- The C5 environment: the server offers a timestamp older than the
remembered version 5. -/
def envC5 : Env := mkEnv (fun _ => tsDocV3)

/-- A world that already remembers timestamp version 5. -/
def wC5 : World := ⟨⟨[("k1", key1)], roles1, 5, []⟩, [], []⟩

/-- A world whose trust declares no role named `mystery`. -/
def wC7 : World := ⟨⟨[("k1", key1)], [("snapshot", 1)], 0, []⟩, [], []⟩

/-- A document for a role that no root ever declared. -/
def docC7 : Doc := ⟨⟨"Mystery", 1, [], [], [], []⟩, [sigK1], "c7"⟩

/-- A root document as saved by `saveRole` in the C8 scenario. -/
def docC8 : Doc := ⟨⟨"Root", 1, [], roles1, [], []⟩, [sigK1], "c8"⟩

/-- The C9 environment: the server returns a two-byte target body. -/
def envC9 : Env :=
  ⟨fun _ => doc0, fun _ => "ab", fun _ _ _ => true, fun _ _ => true,
   fun d => d.canonical⟩

/-- A target whose declared length 1 is one byte short of the served body. -/
def tC9 : Target := ⟨"c", "f", 1, none⟩

/-- A zero-length target. -/
def tC10 : Target := ⟨"c", "f0", 0, some (HashAlg.sha256, "deadbeef")⟩

/-- A well-formed root document: one RSA key, one role at threshold 1. -/
def docC2ok : Doc :=
  ⟨⟨"Root", 1, [("a", ⟨"RSA", "pa"⟩)], [("root", 1)], [], []⟩, [], "c2ok"⟩

/-! ### Helper lemmas about the map model -/

/-- `orD` drops a `none` on the right. -/
theorem orD_none_right {α : Type} (a : Option α) : orD a none = a := by
  cases a <;> rfl

/-- `orD` is associative. -/
theorem orD_assoc {α : Type} (a b c : Option α) :
    orD (orD a b) c = orD a (orD b c) := by
  cases a <;> rfl

/-- Lookup after an overwriting assignment. -/
theorem lookup_mapSet {α : Type} (m : List (String × α)) (k k' : String) (v : α) :
    lookup (mapSet m k v) k' = if k = k' then some v else lookup m k' := by
  induction m with
  | nil => simp [mapSet, lookup]
  | cons p rest ih =>
    obtain ⟨a, b⟩ := p
    by_cases hak : a = k
    · subst hak
      by_cases h : a = k' <;> simp [mapSet, lookup, h]
    · have hka : ¬ k = a := fun h' => hak h'.symm
      by_cases h : a = k'
      · subst h
        simp [mapSet, lookup, hak, hka, ih]
      · simp [mapSet, lookup, hak, h, ih]

/-- Lookup after a keep-existing insert. -/
theorem lookup_mapInsert {α : Type} (m : List (String × α)) (k k' : String) (v : α) :
    lookup (mapInsert m k v) k' =
      orD (lookup m k') (if k = k' then some v else none) := by
  induction m with
  | nil => simp [mapInsert, lookup, orD]
  | cons p rest ih =>
    obtain ⟨a, b⟩ := p
    by_cases hak : a = k
    · subst hak
      by_cases h : a = k'
      · simp [mapInsert, lookup, h, orD]
      · simp [mapInsert, lookup, h, orD_none_right]
    · by_cases h : a = k'
      · subst h
        simp [mapInsert, lookup, hak, orD, ih]
      · simp [mapInsert, lookup, hak, h, ih]

/-- Overwriting a binding with the value it already has is a no-op. -/
theorem mapSet_self {α : Type} (m : List (String × α)) (k : String) (v : α)
    (h : lookup m k = some v) : mapSet m k v = m := by
  induction m with
  | nil => simp [lookup] at h
  | cons p rest ih =>
    obtain ⟨a, b⟩ := p
    by_cases hak : a = k
    · subst hak
      simp [lookup] at h
      simp [mapSet, h]
    · simp [lookup, hak] at h
      simp [mapSet, hak, ih h]

/-- Lookup distributes over append. -/
theorem lookup_append {α : Type} (m m' : List (String × α)) (k : String) :
    lookup (m ++ m') k = orD (lookup m k) (lookup m' k) := by
  induction m with
  | nil => simp [lookup, orD]
  | cons p rest ih =>
    obtain ⟨a, b⟩ := p
    by_cases h : a = k <;> simp [lookup, h, orD, ih]

/-- `pkOf` on a cons cell. -/
theorem pkOf_cons (kid0 : String) (ke : KeyEntry)
    (rest : List (String × KeyEntry)) (kid : String) :
    pkOf ((kid0, ke) :: rest) kid =
      if kid0 = kid then some ⟨ke.keyvalPublic, ke.keytype⟩ else pkOf rest kid := by
  by_cases h : kid0 = kid <;> simp [pkOf, lookup, h]

/-! ### Characterizations of the signature loop -/

/-- A signature the loop lets pass: supported method, known keyid,
verifying signature. -/
def sigAccepted (env : Env) (keys : List (String × PublicKey))
    (canonical : String) (s : Sig) : Prop :=
  (lowerStr s.method = "rsassa-pss" ∨ lowerStr s.method = "ed25519") ∧
  ∃ k, lookup keys s.keyid = some k ∧ env.verifySig k s.sig canonical = true

/-- If the signature loop returns without throwing, every signature in the
array passed the method, key-presence and verification checks. -/
theorem checkSigs_ok_forall (env : Env) (n canonical : String)
    (keys : List (String × PublicKey)) (sigs : List Sig)
    (h : checkSigs env n canonical keys sigs = .ok ()) :
    ∀ s ∈ sigs, sigAccepted env keys canonical s := by
  induction sigs with
  | nil => simp
  | cons s rest ih =>
    intro s' hs'
    unfold checkSigs at h
    by_cases hm : lowerStr s.method = "rsassa-pss" ∨ lowerStr s.method = "ed25519"
    · rw [if_neg (not_not_intro hm)] at h
      cases hk : lookup keys s.keyid with
      | none =>
        simp only [hk] at h
        exact absurd h (by simp)
      | some key =>
        simp only [hk] at h
        by_cases hv : env.verifySig key s.sig canonical = true
        · rw [if_pos hv] at h
          rcases List.mem_cons.mp hs' with rfl | h2
          · exact ⟨hm, key, hk, hv⟩
          · exact ih h s' h2
        · rw [if_neg hv] at h
          exact absurd h (by simp)
    · rw [if_pos hm] at h
      exact absurd h (by simp)

/-- Conversely, if every signature passes the three checks, the loop
returns without throwing. -/
theorem checkSigs_ok_of_forall (env : Env) (n canonical : String)
    (keys : List (String × PublicKey)) (sigs : List Sig)
    (h : ∀ s ∈ sigs, sigAccepted env keys canonical s) :
    checkSigs env n canonical keys sigs = .ok () := by
  induction sigs with
  | nil => rfl
  | cons s rest ih =>
    obtain ⟨hm, key, hk, hv⟩ := h s (by simp)
    unfold checkSigs
    rw [if_neg (not_not_intro hm)]
    simp only [hk]
    rw [if_pos hv]
    exact ih (fun s' hs' => h s' (by simp [hs']))

/-! ### Frame lemmas for the stateful operations -/

/-- `verifyRole` mutates no member but `thresholds_` (through the
default-inserting `operator[]`). -/
theorem verifyRole_frame (env : Env) (n : String) (d : Doc) (w : World) :
    (verifyRole env n d w).2.repo.keys = w.repo.keys ∧
    (verifyRole env n d w).2.repo.timestampVersion = w.repo.timestampVersion ∧
    (verifyRole env n d w).2.repo.targets = w.repo.targets ∧
    (verifyRole env n d w).2.files = w.files ∧
    (verifyRole env n d w).2.fetches = w.fetches := by
  unfold verifyRole
  split
  · exact ⟨rfl, rfl, rfl, rfl, rfl⟩
  · split <;> exact ⟨rfl, rfl, rfl, rfl, rfl⟩

/-- When `verifyRole` returns normally, its result is the signature loop's
and its only state effect is the bracket read of `thresholds_[role]`. -/
theorem verifyRole_ok_snd (env : Env) (n : String) (d : Doc) (w : World)
    (h : (verifyRole env n d w).1 = .ok ()) :
    (verifyRole env n d w).2 =
      { w with repo := { w.repo with
          thresholds := (bracketInt w.repo.thresholds (lowerStr d.signedPart.typ)).2 } } := by
  unfold verifyRole at h ⊢
  by_cases h0 : d.signatures.length = 0
  · rw [if_pos h0] at h
    exact absurd h (by simp)
  · rw [if_neg h0] at h ⊢
    by_cases hlt : ltUnsigned d.signatures.length
        (bracketInt w.repo.thresholds (lowerStr d.signedPart.typ)).1 = true
    · rw [if_pos hlt] at h
      exact absurd h (by simp)
    · rw [if_neg hlt]

/-- When `verifyRole` returns normally, the bracket read did not change
`thresholds_` if the role was already present. -/
theorem verifyRole_snd_of_contains (env : Env) (n : String) (d : Doc) (w : World)
    (hc : contains w.repo.thresholds (lowerStr d.signedPart.typ) = true)
    (h : (verifyRole env n d w).1 = .ok ()) :
    (verifyRole env n d w).2 = w := by
  rw [verifyRole_ok_snd env n d w h]
  unfold contains at hc
  cases hl : lookup w.repo.thresholds (lowerStr d.signedPart.typ) with
  | none => rw [hl] at hc; simp at hc
  | some t => unfold bracketInt; rw [hl]

/-- When `verifyRole` returns normally, its verdict is the loop's verdict
and the signatures array is non-empty and meets the threshold compare. -/
theorem verifyRole_ok_fst (env : Env) (n : String) (d : Doc) (w : World)
    (h : (verifyRole env n d w).1 = .ok ()) :
    d.signatures.length ≠ 0 ∧
    ltUnsigned d.signatures.length
      (bracketInt w.repo.thresholds (lowerStr d.signedPart.typ)).1 = false ∧
    checkSigs env n d.canonical w.repo.keys d.signatures = .ok () := by
  unfold verifyRole at h
  by_cases h0 : d.signatures.length = 0
  · rw [if_pos h0] at h
    exact absurd h (by simp)
  · rw [if_neg h0] at h
    by_cases hlt : ltUnsigned d.signatures.length
        (bracketInt w.repo.thresholds (lowerStr d.signedPart.typ)).1 = true
    · rw [if_pos hlt] at h
      exact absurd h (by simp)
    · rw [if_neg hlt] at h
      exact ⟨h0, by simpa using hlt, h⟩

/-- On success, the key loop has merged the root's keys into the existing
`keys_` with `std::map::insert` semantics: an existing keyid keeps its
prior key; a fresh keyid gets the first binding the document declares. -/
theorem initKeys_ok_lookup (n : String) :
    ∀ (entries : List (String × KeyEntry)) (keys ks : List (String × PublicKey)),
    initKeys n keys entries = (.ok (), ks) →
    ∀ kid, lookup ks kid = orD (lookup keys kid) (pkOf entries kid) := by
  intro entries
  induction entries with
  | nil =>
    intro keys ks h kid
    unfold initKeys at h
    simp only [Prod.mk.injEq] at h
    rw [← h.2]
    simp [pkOf, lookup, orD_none_right]
  | cons p rest ih =>
    intro keys ks h kid
    obtain ⟨kid0, ke⟩ := p
    unfold initKeys at h
    by_cases hv : lowerStr ke.keytype = "rsa" ∨ lowerStr ke.keytype = "ed25519"
    · rw [if_neg (not_not_intro hv)] at h
      rw [ih (mapInsert keys kid0 ⟨ke.keyvalPublic, ke.keytype⟩) ks h kid]
      rw [lookup_mapInsert, pkOf_cons, orD_assoc]
      by_cases hr : kid0 = kid
      · cases lookup keys kid <;> simp [hr, orD]
      · cases lookup keys kid <;> simp [hr, orD]
    · rw [if_pos hv] at h
      exact absurd h (by simp)

/-- On success, the role loop has assigned the root's thresholds into the
existing `thresholds_` with `operator[]` semantics: the last binding the
document declares wins; roles the document does not mention keep their
prior threshold. -/
theorem initRoles_ok_lookup (n : String) :
    ∀ (entries thr ths : List (String × Int)),
    initRoles n thr entries = (.ok (), ths) →
    ∀ r, lookup ths r = orD (lookup entries.reverse r) (lookup thr r) := by
  intro entries
  induction entries with
  | nil =>
    intro thr ths h r
    unfold initRoles at h
    simp only [Prod.mk.injEq] at h
    rw [← h.2]
    simp [lookup, orD]
  | cons p rest ih =>
    intro thr ths h r
    obtain ⟨role, t⟩ := p
    unfold initRoles at h
    by_cases h1 : t < kMinSignatures
    · rw [if_pos h1] at h
      exact absurd h (by simp)
    · rw [if_neg h1] at h
      by_cases h2 : kMaxSignatures < t
      · rw [if_pos h2] at h
        exact absurd h (by simp)
      · rw [if_neg h2] at h
        rw [ih (mapSet thr role t) ths h r]
        rw [List.reverse_cons, lookup_append, orD_assoc, lookup_mapSet]
        by_cases hr : role = r
        · simp [lookup, hr, orD]
        · simp [lookup, hr, orD]

/-- On success, every threshold the root declared was within
`[kMinSignatures, kMaxSignatures]`. -/
theorem initRoles_ok_bounds (n : String) :
    ∀ (entries thr ths : List (String × Int)),
    initRoles n thr entries = (.ok (), ths) →
    ∀ p ∈ entries, kMinSignatures ≤ p.2 ∧ p.2 ≤ kMaxSignatures := by
  intro entries
  induction entries with
  | nil => intro thr ths h p hp; simp at hp
  | cons q rest ih =>
    intro thr ths h p hp
    obtain ⟨role, t⟩ := q
    unfold initRoles at h
    by_cases h1 : t < kMinSignatures
    · rw [if_pos h1] at h
      exact absurd h (by simp)
    · rw [if_neg h1] at h
      by_cases h2 : kMaxSignatures < t
      · rw [if_pos h2] at h
        exact absurd h (by simp)
      · rw [if_neg h2] at h
        rcases List.mem_cons.mp hp with rfl | hp'
        · exact ⟨Int.not_lt.mp h1, Int.not_lt.mp h2⟩
        · exact ih (mapSet thr role t) ths h p hp'

/-- A successful `initRoot` touches only `keys_` and `thresholds_`, through
its two loops. -/
theorem initRoot_ok_spec (cfg : Cfg) (d : Doc) (w : World)
    (h : (initRoot cfg d w).1 = .ok ()) :
    (initRoot cfg d w).2.files = w.files ∧
    (initRoot cfg d w).2.fetches = w.fetches ∧
    (initRoot cfg d w).2.repo.timestampVersion = w.repo.timestampVersion ∧
    (initRoot cfg d w).2.repo.targets = w.repo.targets ∧
    initKeys cfg.name w.repo.keys d.signedPart.keys =
      (.ok (), (initRoot cfg d w).2.repo.keys) ∧
    initRoles cfg.name w.repo.thresholds d.signedPart.roles =
      (.ok (), (initRoot cfg d w).2.repo.thresholds) := by
  unfold initRoot at h ⊢
  rcases hik : initKeys cfg.name w.repo.keys d.signedPart.keys with ⟨ikres, ks⟩
  simp only [hik] at h ⊢
  cases ikres with
  | error e => simp at h
  | ok u =>
    rcases hir : initRoles cfg.name w.repo.thresholds d.signedPart.roles with ⟨irres, ths⟩
    simp only [hir] at h ⊢
    cases irres with
    | error e => simp at h
    | ok v => simp

/-- `saveRole` only writes one file. -/
theorem saveRole_spec (env : Env) (cfg : Cfg) (d : Doc) (w : World) :
    saveRole env cfg d w =
      { w with files := (mapSet w.files
          (saveRolePath cfg (lowerStr d.signedPart.typ)) (env.render d)) } := rfl

/-- `updateRole` unfolded past the fetch. -/
theorem updateRole_eq (env : Env) (cfg : Cfg) (role : String) (w : World) :
    updateRole env cfg role w =
      (match verifyRole env cfg.name (env.fetchJson role)
          { w with fetches := w.fetches ++ [Fetch.json role] } with
       | (.error e, w2) => (.error e, w2)
       | (.ok _, w2) =>
         (.ok (env.fetchJson role),
          saveRole env cfg (env.fetchJson role) w2)) := rfl

/-- `updateRole` records exactly one fetch, of its role, whatever the
verification outcome. -/
theorem updateRole_fetches (env : Env) (cfg : Cfg) (role : String) (w : World) :
    (updateRole env cfg role w).2.fetches = w.fetches ++ [Fetch.json role] := by
  rw [updateRole_eq]
  rcases hv : verifyRole env cfg.name (env.fetchJson role)
      { w with fetches := w.fetches ++ [Fetch.json role] } with ⟨res, w2⟩
  have hf := (verifyRole_frame env cfg.name (env.fetchJson role)
      { w with fetches := w.fetches ++ [Fetch.json role] }).2.2.2.2
  rw [hv] at hf
  cases res with
  | error e => simpa using hf
  | ok u => simpa [saveRole_spec] using hf

/-- `saveTarget` fetches the blob exactly when the declared length is
positive. -/
theorem saveTarget_fetches (env : Env) (cfg : Cfg) (t : Target) (w : World) :
    (saveTarget env cfg t w).2.fetches =
      w.fetches ++ (if 0 < t.length then [Fetch.bytes t.filename] else []) := by
  unfold saveTarget
  by_cases h : 0 < t.length
  · rw [if_pos h, if_pos h]
    dsimp only
    split
    · rfl
    · split <;> rfl
  · rw [if_neg h, if_neg h]
    simp

/-- The targets loop issues only byte fetches. -/
theorem processTargets_fetches_ext (env : Env) (cfg : Cfg) :
    ∀ (entries : List (String × TargetEntry)) (w : World),
    ∃ ext, (processTargets env cfg entries w).2.fetches = w.fetches ++ ext ∧
      ∀ f ∈ ext, ∃ p, f = Fetch.bytes p := by
  intro entries
  induction entries with
  | nil =>
    intro w
    exact ⟨[], by simp [processTargets], by simp⟩
  | cons e rest ih =>
    intro w
    obtain ⟨tname, te⟩ := e
    unfold processTargets
    rcases hst : saveTarget env cfg ⟨te.custom, tname, te.length, mkHash te⟩ w
      with ⟨res, w1⟩
    have hf : w1.fetches =
        w.fetches ++ (if 0 < te.length then [Fetch.bytes tname] else []) := by
      have hh := saveTarget_fetches env cfg ⟨te.custom, tname, te.length, mkHash te⟩ w
      rw [hst] at hh
      exact hh
    have hbex : ∀ f ∈ (if 0 < te.length then [Fetch.bytes tname] else []),
        ∃ p, f = Fetch.bytes p := by
      split <;> simp
    cases res with
    | error e =>
      exact ⟨_, hf, hbex⟩
    | ok u =>
      obtain ⟨ext, h1, h2⟩ := ih w1
      refine ⟨(if 0 < te.length then [Fetch.bytes tname] else []) ++ ext, ?_, ?_⟩
      · rw [h1, hf, List.append_assoc]
      · intro f hfm
        rcases List.mem_append.mp hfm with hl | hr
        · exact hbex f hl
        · exact h2 f hr

/-- The role loop's JSON fetches are confined to the roles it was given
(its target-blob fetches are byte fetches). -/
theorem processRoles_fetches_ext (env : Env) (cfg : Cfg) :
    ∀ (roles : List String) (w : World),
    ∃ ext, (processRoles env cfg roles w).2.fetches = w.fetches ++ ext ∧
      ∀ p, Fetch.json p ∈ ext → p ∈ roles := by
  intro roles
  induction roles with
  | nil =>
    intro w
    exact ⟨[], by simp [processRoles], by simp⟩
  | cons r rest ih =>
    intro w
    unfold processRoles
    rcases hur : updateRole env cfg r w with ⟨res, w1⟩
    have hf : w1.fetches = w.fetches ++ [Fetch.json r] := by
      have hh := updateRole_fetches env cfg r w
      rw [hur] at hh
      exact hh
    cases res with
    | error e =>
      refine ⟨[Fetch.json r], hf, ?_⟩
      intro p hp
      simp at hp
      simp [hp]
    | ok content =>
      dsimp only
      by_cases hr : r = "targets.json"
      · rw [if_pos hr]
        rcases hpt : processTargets env cfg content.signedPart.targets w1
          with ⟨res2, w2⟩
        obtain ⟨bex, hb1, hb2⟩ := processTargets_fetches_ext env cfg
          content.signedPart.targets w1
        rw [hpt] at hb1
        cases res2 with
        | error e =>
          refine ⟨[Fetch.json r] ++ bex, ?_, ?_⟩
          · rw [hb1, hf, List.append_assoc]
          · intro p hp
            rcases List.mem_append.mp hp with hl | hrr
            · simp at hl
              simp [hl]
            · obtain ⟨q, hq⟩ := hb2 _ hrr
              exact absurd hq (by simp)
        | ok u =>
          obtain ⟨ext, h1, h2⟩ := ih w2
          refine ⟨[Fetch.json r] ++ bex ++ ext, ?_, ?_⟩
          · rw [h1, hb1, hf]
            simp [List.append_assoc]
          · intro p hp
            rcases List.mem_append.mp hp with hl | hrr
            · rcases List.mem_append.mp hl with hll | hlr
              · simp at hll
                simp [hll]
              · obtain ⟨q, hq⟩ := hb2 _ hlr
                exact absurd hq (by simp)
            · exact List.mem_cons_of_mem r (h2 p hrr)
      · rw [if_neg hr]
        obtain ⟨ext, h1, h2⟩ := ih w1
        refine ⟨[Fetch.json r] ++ ext, ?_, ?_⟩
        · rw [h1, hf, List.append_assoc]
        · intro p hp
          rcases List.mem_append.mp hp with hl | hrr
          · simp at hl
            simp [hl]
          · exact List.mem_cons_of_mem r (h2 p hrr)

/-- `refresh` when the fetched timestamp is not strictly newer than the
remembered version: the timestamp is still fetched, verified, saved and
remembered, the in-memory target list is cleared, and nothing else
happens. -/
theorem refresh_not_new (env : Env) (cfg : Cfg) (w : World)
    (h : ¬ w.repo.timestampVersion < (env.fetchJson "timestamp.json").signedPart.version) :
    refresh env cfg w =
      (match verifyRole env cfg.name (env.fetchJson "timestamp.json")
          { w with repo := { w.repo with targets := [] },
                   fetches := w.fetches ++ [Fetch.json "timestamp.json"] } with
       | (.error e, w1) => (.error e, w1)
       | (.ok _, w1) =>
         (.ok (), { saveRole env cfg (env.fetchJson "timestamp.json") w1 with
            repo := { (saveRole env cfg (env.fetchJson "timestamp.json") w1).repo with
              timestampVersion := (env.fetchJson "timestamp.json").signedPart.version } })) := by
  unfold refresh checkTimestamp
  rw [updateRole_eq]
  rcases hv : verifyRole env cfg.name (env.fetchJson "timestamp.json")
      { w with repo := { w.repo with targets := [] },
               fetches := w.fetches ++ [Fetch.json "timestamp.json"] } with ⟨res, w1⟩
  cases res with
  | error e => rfl
  | ok u =>
    have ht : w1.repo.timestampVersion = w.repo.timestampVersion := by
      have hh := (verifyRole_frame env cfg.name (env.fetchJson "timestamp.json")
        { w with repo := { w.repo with targets := [] },
                 fetches := w.fetches ++ [Fetch.json "timestamp.json"] }).2.1
      rw [hv] at hh
      exact hh
    dsimp only [saveRole]
    rw [ht]
    rw [decide_eq_false h]
    rfl

/-- When the snapshot step succeeds and the snapshot's `meta` lists
`root.json`, the fetch order is: snapshot, then root, then the remaining
roles — and root is never fetched again. -/
theorem snapshotStep_fetches (env : Env) (cfg : Cfg) (wA : World)
    (h2 : (snapshotStep env cfg wA).1 = .ok ())
    (h3 : (env.fetchJson "snapshot.json").signedPart.meta.contains "root.json" = true) :
    ∃ rest, (snapshotStep env cfg wA).2.fetches =
      wA.fetches ++ [Fetch.json "snapshot.json", Fetch.json "root.json"] ++ rest ∧
      Fetch.json "root.json" ∉ rest := by
  unfold snapshotStep at h2 ⊢
  rw [updateRole_eq] at h2 ⊢
  rcases hv : verifyRole env cfg.name (env.fetchJson "snapshot.json")
      { wA with fetches := wA.fetches ++ [Fetch.json "snapshot.json"] } with ⟨res, w2⟩
  rw [hv] at h2
  have hf2 : w2.fetches = wA.fetches ++ [Fetch.json "snapshot.json"] := by
    have hh := (verifyRole_frame env cfg.name (env.fetchJson "snapshot.json")
      { wA with fetches := wA.fetches ++ [Fetch.json "snapshot.json"] }).2.2.2.2
    rw [hv] at hh
    exact hh
  cases res with
  | error e => exact absurd h2 (by simp)
  | ok u =>
    dsimp only at h2 ⊢
    rw [if_pos h3] at h2 ⊢
    rw [updateRole_eq] at h2 ⊢
    rcases hv2 : verifyRole env cfg.name (env.fetchJson "root.json")
        { saveRole env cfg (env.fetchJson "snapshot.json") w2 with
          fetches := (saveRole env cfg (env.fetchJson "snapshot.json") w2).fetches
            ++ [Fetch.json "root.json"] } with ⟨res2, w3⟩
    rw [hv2] at h2
    have hf3 : w3.fetches = w2.fetches ++ [Fetch.json "root.json"] := by
      have hh := (verifyRole_frame env cfg.name (env.fetchJson "root.json")
        { saveRole env cfg (env.fetchJson "snapshot.json") w2 with
          fetches := (saveRole env cfg (env.fetchJson "snapshot.json") w2).fetches
            ++ [Fetch.json "root.json"] }).2.2.2.2
      rw [hv2] at hh
      exact hh
    cases res2 with
    | error e => exact absurd h2 (by simp)
    | ok u2 =>
      dsimp only at h2 ⊢
      rcases hi : initRoot cfg (env.fetchJson "root.json")
          (saveRole env cfg (env.fetchJson "root.json") w3) with ⟨res3, w4⟩
      rw [hi] at h2
      cases res3 with
      | error e => exact absurd h2 (by simp)
      | ok u3 =>
        dsimp only at h2 ⊢
        obtain ⟨ext, hpr, hjson⟩ := processRoles_fetches_ext env cfg
          ((env.fetchJson "snapshot.json").signedPart.meta.filter
            (fun r => r ≠ "root.json")) w4
        have hf4 : w4.fetches = w2.fetches ++ [Fetch.json "root.json"] := by
          have hh := (initRoot_ok_spec cfg (env.fetchJson "root.json")
            (saveRole env cfg (env.fetchJson "root.json") w3)
            (by rw [hi])).2.1
          rw [hi] at hh
          rw [hh]
          exact hf3
        refine ⟨ext, ?_, ?_⟩
        · rw [hpr, hf4, hf2]
          simp [List.append_assoc]
        · intro hmem
          have hin := hjson "root.json" hmem
          rw [List.mem_filter] at hin
          have := hin.2
          simp at this

/-! ### Claim theorems -/

/-- C1, counterexample: `verifyRole` accepts a targets document that
carries the same `k1` signature twice against a threshold of 2, although
only one distinct keyid signed it — threshold counting is by occurrence,
not by distinct keyid. -/
theorem C1_counterexample :
    (verifyRole env0 "director" docC1 wC1).1 = .ok () ∧
    lookup wC1.repo.thresholds "targets" = some 2 ∧
    (docC1.signatures.map Sig.keyid).dedup.length = 1 := by
  refine ⟨by decide, by decide, by decide⟩

/-- C1 (amended): an accepted document has at least `thresholds[role]`
signatures counted by occurrence — duplicate keyids each count — and every
listed signature verifies under the current trusted keys. -/
theorem C1_amended_occurrence_count (env : Env) (n : String) (d : Doc)
    (w : World) (t : Int)
    (hl : lookup w.repo.thresholds (lowerStr d.signedPart.typ) = some t)
    (h0 : 0 ≤ t) (hmax : t ≤ kMaxSignatures)
    (hok : (verifyRole env n d w).1 = .ok ()) :
    t.toNat ≤ d.signatures.length ∧
    ∀ s ∈ d.signatures, ∃ k, lookup w.repo.keys s.keyid = some k ∧
      env.verifySig k s.sig d.canonical = true := by
  obtain ⟨hne, hlt, hcs⟩ := verifyRole_ok_fst env n d w hok
  constructor
  · have hb : (bracketInt w.repo.thresholds (lowerStr d.signedPart.typ)).1 = t := by
      unfold bracketInt
      rw [hl]
    rw [hb] at hlt
    unfold ltUnsigned at hlt
    simp only [decide_eq_false_iff_not, not_lt] at hlt
    unfold kMaxSignatures at hmax
    omega
  · intro s hs
    exact ((checkSigs_ok_forall env n d.canonical w.repo.keys d.signatures hcs) s hs).2

/-- C1, witness for the amended theorem at the duplicate-signature
fixture. -/
theorem C1_witness :
    lookup wC1.repo.thresholds (lowerStr docC1.signedPart.typ) = some 2 ∧
    ((2 : Int).toNat ≤ docC1.signatures.length ∧
     ∀ s ∈ docC1.signatures, ∃ k, lookup wC1.repo.keys s.keyid = some k ∧
       env0.verifySig k s.sig docC1.canonical = true) :=
  ⟨by decide,
   C1_amended_occurrence_count env0 "director" docC1 wC1 2
     (by decide) (by decide) (by decide) (by decide)⟩

/-- C2, counterexample: `initRoot` on a root whose second key entry has
the unsupported keytype `dsa` throws, yet the first key has already been
inserted into the live `keys_` — the prior trust state is not left
unchanged, and no fresh mapping is built. -/
theorem C2_counterexample :
    (initRoot cfgD docC2 w0).1 =
      .error (.securityException "director" "Unsupported key type: dsa") ∧
    w0.repo.keys = [] ∧
    (initRoot cfgD docC2 w0).2.repo.keys = [("a", ⟨"pa", "RSA"⟩)] := by
  refine ⟨by decide, by decide, by decide⟩

/-- C2 (amended): `initRoot` mutates the live maps in place as it
iterates; on success the new keys are merged into the existing `keys_`
(an existing keyid keeps its prior key), the thresholds are assigned over
the existing `thresholds_` (last declaration wins), every declared
threshold is within bounds, and no other member changes. -/
theorem C2_amended_in_place_merge (cfg : Cfg) (d : Doc) (w : World)
    (hok : (initRoot cfg d w).1 = .ok ()) :
    (∀ p ∈ d.signedPart.roles, kMinSignatures ≤ p.2 ∧ p.2 ≤ kMaxSignatures) ∧
    (∀ kid, lookup (initRoot cfg d w).2.repo.keys kid =
       orD (lookup w.repo.keys kid) (pkOf d.signedPart.keys kid)) ∧
    (∀ r, lookup (initRoot cfg d w).2.repo.thresholds r =
       orD (lookup d.signedPart.roles.reverse r) (lookup w.repo.thresholds r)) ∧
    (initRoot cfg d w).2.repo.timestampVersion = w.repo.timestampVersion ∧
    (initRoot cfg d w).2.repo.targets = w.repo.targets ∧
    (initRoot cfg d w).2.files = w.files ∧
    (initRoot cfg d w).2.fetches = w.fetches := by
  obtain ⟨hfiles, hfetches, htv, htg, hik, hir⟩ := initRoot_ok_spec cfg d w hok
  refine ⟨?_, ?_, ?_, htv, htg, hfiles, hfetches⟩
  · exact initRoles_ok_bounds cfg.name d.signedPart.roles w.repo.thresholds _ hir
  · exact initKeys_ok_lookup cfg.name d.signedPart.keys w.repo.keys _ hik
  · exact initRoles_ok_lookup cfg.name d.signedPart.roles w.repo.thresholds _ hir

/-- C2, witness for the amended theorem at a well-formed root. -/
theorem C2_witness :
    (initRoot cfgD docC2ok w0).1 = .ok () ∧
    ((∀ p ∈ docC2ok.signedPart.roles,
        kMinSignatures ≤ p.2 ∧ p.2 ≤ kMaxSignatures) ∧
     (∀ kid, lookup (initRoot cfgD docC2ok w0).2.repo.keys kid =
        orD (lookup w0.repo.keys kid) (pkOf docC2ok.signedPart.keys kid)) ∧
     (∀ r, lookup (initRoot cfgD docC2ok w0).2.repo.thresholds r =
        orD (lookup docC2ok.signedPart.roles.reverse r)
          (lookup w0.repo.thresholds r)) ∧
     (initRoot cfgD docC2ok w0).2.repo.timestampVersion =
       w0.repo.timestampVersion ∧
     (initRoot cfgD docC2ok w0).2.repo.targets = w0.repo.targets ∧
     (initRoot cfgD docC2ok w0).2.files = w0.files ∧
     (initRoot cfgD docC2ok w0).2.fetches = w0.fetches) :=
  ⟨by decide, C2_amended_in_place_merge cfgD docC2ok w0 (by decide)⟩

/-- C5, counterexample: with remembered version 5 and a served timestamp
at version 3, `checkTimestamp` returns `false` but still overwrites the
remembered version down to 3 — the remembered version is not monotone. -/
theorem C5_counterexample :
    (checkTimestamp envC5 cfgD wC5).1 = .ok false ∧
    wC5.repo.timestampVersion = 5 ∧
    (checkTimestamp envC5 cfgD wC5).2.repo.timestampVersion = 3 := by
  refine ⟨by decide, by decide, by decide⟩

/-- C5 (amended): whenever `checkTimestamp` returns normally, the
remembered version is unconditionally overwritten with the fetched
document's version — even when that is lower — and the returned flag is
true exactly when the fetched version is strictly greater. -/
theorem C5_amended_always_overwrites (env : Env) (cfg : Cfg) (w : World)
    (b : Bool) (hok : (checkTimestamp env cfg w).1 = .ok b) :
    (checkTimestamp env cfg w).2.repo.timestampVersion =
      (env.fetchJson "timestamp.json").signedPart.version ∧
    (b = true ↔ w.repo.timestampVersion <
      (env.fetchJson "timestamp.json").signedPart.version) := by
  unfold checkTimestamp at hok ⊢
  rw [updateRole_eq] at hok ⊢
  rcases hv : verifyRole env cfg.name (env.fetchJson "timestamp.json")
      { w with fetches := w.fetches ++ [Fetch.json "timestamp.json"] }
    with ⟨res, w1⟩
  rw [hv] at hok
  have ht : w1.repo.timestampVersion = w.repo.timestampVersion := by
    have hh := (verifyRole_frame env cfg.name (env.fetchJson "timestamp.json")
      { w with fetches := w.fetches ++ [Fetch.json "timestamp.json"] }).2.1
    rw [hv] at hh
    exact hh
  cases res with
  | error e => exact absurd hok (by simp)
  | ok u =>
    dsimp only [saveRole] at hok ⊢
    rw [ht] at hok
    refine ⟨rfl, ?_⟩
    have hb : b = decide (w.repo.timestampVersion <
        (env.fetchJson "timestamp.json").signedPart.version) := by
      injection hok with hok'
      exact hok'.symm
    rw [hb]
    exact decide_eq_true_iff

/-- C5, witness for the amended theorem at the version-3-after-5
fixture. -/
theorem C5_witness :
    (checkTimestamp envC5 cfgD wC5).1 = .ok false ∧
    ((checkTimestamp envC5 cfgD wC5).2.repo.timestampVersion =
       (envC5.fetchJson "timestamp.json").signedPart.version ∧
     (false = true ↔ wC5.repo.timestampVersion <
       (envC5.fetchJson "timestamp.json").signedPart.version)) :=
  ⟨by decide, C5_amended_always_overwrites envC5 cfgD wC5 false (by decide)⟩

/-- C7, counterexample: a document whose role `mystery` was never declared
in any root is accepted by `verifyRole` — the default-inserting read
`thresholds_["mystery"]` silently creates a threshold of 0, so one valid
signature suffices; no membership check happens. -/
theorem C7_counterexample :
    contains wC7.repo.thresholds "mystery" = false ∧
    (verifyRole env0 "director" docC7 wC7).1 = .ok () ∧
    lookup (verifyRole env0 "director" docC7 wC7).2.repo.thresholds "mystery" =
      some 0 := by
  refine ⟨by decide, by decide, by decide⟩

/-- C7 (amended): `verifyRole` performs no membership check: for a role
absent from `thresholds_`, the bracket read default-inserts a threshold of
0 into the live map, and any document with a non-empty, all-valid
signature array is accepted. -/
theorem C7_amended_no_membership_check (env : Env) (n : String) (d : Doc)
    (w : World)
    (habs : lookup w.repo.thresholds (lowerStr d.signedPart.typ) = none)
    (hne : ¬ d.signatures.length = 0)
    (hsigs : ∀ s ∈ d.signatures, sigAccepted env w.repo.keys d.canonical s) :
    (verifyRole env n d w).1 = .ok () ∧
    (verifyRole env n d w).2.repo.thresholds =
      w.repo.thresholds ++ [(lowerStr d.signedPart.typ, 0)] := by
  have hb : bracketInt w.repo.thresholds (lowerStr d.signedPart.typ) =
      (0, w.repo.thresholds ++ [(lowerStr d.signedPart.typ, 0)]) := by
    unfold bracketInt
    rw [habs]
  have hlt : ltUnsigned d.signatures.length 0 = false := by
    unfold ltUnsigned
    simp only [Int.zero_emod]
    exact decide_eq_false (by omega)
  unfold verifyRole
  rw [if_neg hne, hb]
  dsimp only
  rw [hlt]
  simp only [Bool.false_eq_true, if_false]
  constructor
  · exact checkSigs_ok_of_forall env n d.canonical w.repo.keys d.signatures hsigs
  · trivial

/-- C7, witness for the amended theorem at the `mystery` fixture. -/
theorem C7_witness :
    lookup wC7.repo.thresholds (lowerStr docC7.signedPart.typ) = none ∧
    ((verifyRole env0 "director" docC7 wC7).1 = .ok () ∧
     (verifyRole env0 "director" docC7 wC7).2.repo.thresholds =
       wC7.repo.thresholds ++ [(lowerStr docC7.signedPart.typ, 0)]) :=
  ⟨by decide,
   C7_amended_no_membership_check env0 "director" docC7 wC7 (by decide)
     (by decide)
     (by
       intro s hs
       have hs' : s = sigK1 := by
         simpa [docC7] using hs
       subst hs'
       exact ⟨Or.inr (by decide), key1, by decide, by decide⟩)⟩

/-- C8 (code bug): `saveRole` writes the role document at
`<metadata>/<name>/<name>/<role>.json` (it appends `name_` to `path_`,
which is already `<metadata>/<name>`), while the constructor loads
`root.json` from `path_ / "root.json"` = `<metadata>/<name>/root.json` —
the spec's layout.  A saved document is therefore never found by `load`:
the `save`/`load` round trip fails on the paths alone. -/
theorem C8_save_load_path_mismatch :
    saveRolePath cfgD "root" = "meta/director/director/root.json" ∧
    rootLoadPath cfgD = "meta/director/root.json" ∧
    ¬ saveRolePath cfgD "root" = rootLoadPath cfgD ∧
    lookup (saveRole env0 cfgD docC8 w0).files (rootLoadPath cfgD) = none := by
  refine ⟨by decide, by decide, by decide, by decide⟩

/-- C9: for a target of declared positive length `L`, `saveTarget` raises
`OversizedTarget` exactly when the fetched body is longer than `L`; a body
of at most `L` bytes proceeds to the hash check, whose outcome alone
decides between success and `TargetHashMismatch`. -/
theorem C9_oversize_exact (env : Env) (cfg : Cfg) (t : Target) (w : World)
    (h : 0 < t.length) :
    ((saveTarget env cfg t w).1 = .error (.oversizedTarget cfg.name) ↔
      t.length < (env.fetchBytes t.filename).length) ∧
    ((env.fetchBytes t.filename).length ≤ t.length →
      (saveTarget env cfg t w).1 =
        (if env.hashMatch t.hash (env.fetchBytes t.filename) then .ok ()
         else .error (.targetHashMismatch cfg.name))) := by
  unfold saveTarget
  rw [if_pos h]
  dsimp only
  by_cases hlen : t.length < (env.fetchBytes t.filename).length
  · rw [if_pos hlen]
    exact ⟨⟨fun _ => hlen, fun _ => rfl⟩, fun hle => absurd hlen (by omega)⟩
  · rw [if_neg hlen]
    by_cases hh : env.hashMatch t.hash (env.fetchBytes t.filename) = true
    · rw [if_neg (not_not_intro hh)]
      refine ⟨⟨fun hc => absurd hc (by simp), fun hl => absurd hl hlen⟩, ?_⟩
      intro hle
      rw [if_pos hh]
    · rw [if_pos hh]
      refine ⟨⟨fun hc => absurd hc (by simp), fun hl => absurd hl hlen⟩, ?_⟩
      intro hle
      rw [if_neg hh]

/-- C9, witness at the one-byte-over fixture: length 1 declared, 2 bytes
served. -/
theorem C9_witness :
    0 < tC9.length ∧
    (((saveTarget envC9 cfgD tC9 w0).1 =
        .error (.oversizedTarget cfgD.name) ↔
      tC9.length < (envC9.fetchBytes tC9.filename).length) ∧
     ((envC9.fetchBytes tC9.filename).length ≤ tC9.length →
       (saveTarget envC9 cfgD tC9 w0).1 =
         (if envC9.hashMatch tC9.hash (envC9.fetchBytes tC9.filename) then .ok ()
          else .error (.targetHashMismatch cfgD.name)))) :=
  ⟨by decide, C9_oversize_exact envC9 cfgD tC9 w0 (by decide)⟩

/-- C10: a zero-length target is appended to `targets_` with no download,
no size check, no hash check and no file write — `saveTarget` is then a
pure append; a positive-length target is appended exactly when both the
size check and the hash check pass, and is not appended on any throw. -/
theorem C10_zero_length_metadata_only (env : Env) (cfg : Cfg) (t : Target)
    (w : World) :
    (t.length = 0 →
      saveTarget env cfg t w =
        (.ok (), { w with repo :=
          { w.repo with targets := w.repo.targets ++ [t] } })) ∧
    (0 < t.length →
      ((saveTarget env cfg t w).1 = .ok () →
        (env.fetchBytes t.filename).length ≤ t.length ∧
        env.hashMatch t.hash (env.fetchBytes t.filename) = true ∧
        (saveTarget env cfg t w).2.repo.targets = w.repo.targets ++ [t]) ∧
      (∀ e, (saveTarget env cfg t w).1 = .error e →
        (saveTarget env cfg t w).2.repo.targets = w.repo.targets)) := by
  constructor
  · intro h0
    unfold saveTarget
    rw [if_neg (by omega : ¬ 0 < t.length)]
  · intro hpos
    unfold saveTarget
    rw [if_pos hpos]
    dsimp only
    by_cases hlen : t.length < (env.fetchBytes t.filename).length
    · rw [if_pos hlen]
      exact ⟨fun hc => absurd hc (by simp), fun e _ => rfl⟩
    · rw [if_neg hlen]
      by_cases hh : env.hashMatch t.hash (env.fetchBytes t.filename) = true
      · rw [if_neg (not_not_intro hh)]
        exact ⟨fun _ => ⟨by omega, hh, rfl⟩, fun e hc => absurd hc (by simp)⟩
      · rw [if_pos hh]
        exact ⟨fun hc => absurd hc (by simp), fun e _ => rfl⟩

/-- C10, witness at a zero-length target. -/
theorem C10_witness :
    tC10.length = 0 ∧
    saveTarget env0 cfgD tC10 w0 =
      (.ok (), { w0 with repo :=
        { w0.repo with targets := w0.repo.targets ++ [tC10] } }) :=
  ⟨by decide,
   (C10_zero_length_metadata_only env0 cfgD tC10 w0).1 (by decide)⟩

/-- C6: when the fetched timestamp's version is not strictly greater than
the remembered one, a `refresh` issues no fetch beyond the timestamp
fetch itself — no snapshot, no other role, no target blob. -/
theorem C6_stale_timestamp_only_fetch (env : Env) (cfg : Cfg) (w : World)
    (h : (env.fetchJson "timestamp.json").signedPart.version ≤
      w.repo.timestampVersion) :
    (refresh env cfg w).2.fetches = w.fetches ++ [Fetch.json "timestamp.json"] := by
  rw [refresh_not_new env cfg w (not_lt.mpr h)]
  rcases hv : verifyRole env cfg.name (env.fetchJson "timestamp.json")
      { w with repo := { w.repo with targets := [] },
               fetches := w.fetches ++ [Fetch.json "timestamp.json"] } with ⟨res, w1⟩
  have hfet : w1.fetches = w.fetches ++ [Fetch.json "timestamp.json"] := by
    have hh := (verifyRole_frame env cfg.name (env.fetchJson "timestamp.json")
      { w with repo := { w.repo with targets := [] },
               fetches := w.fetches ++ [Fetch.json "timestamp.json"] }).2.2.2.2
    rw [hv] at hh
    exact hh
  cases res with
  | error e => exact hfet
  | ok u =>
    dsimp only [saveRole]
    exact hfet

/-- C6, witness at the stale-timestamp fixture. -/
theorem C6_witness :
    (envC5.fetchJson "timestamp.json").signedPart.version ≤
      wC5.repo.timestampVersion ∧
    (refresh envC5 cfgD wC5).2.fetches =
      wC5.fetches ++ [Fetch.json "timestamp.json"] :=
  ⟨by decide, C6_stale_timestamp_only_fetch envC5 cfgD wC5 (by decide)⟩

/-- C4, counterexample: after a successful refresh that ingested one
target, a second refresh against the unchanged server succeeds but leaves
`targets()` empty — `refresh` clears `targets_` before the freshness
check, so a no-change refresh is not idempotent on `targets()`. -/
theorem C4_counterexample :
    (refresh envC4 cfgD wAll).1 = .ok () ∧
    (refresh envC4 cfgD wAll).2.repo.targets = [⟨"c", "f1", 0, none⟩] ∧
    (refresh envC4 cfgD (refresh envC4 cfgD wAll).2).1 = .ok () ∧
    (refresh envC4 cfgD (refresh envC4 cfgD wAll).2).2.repo.targets = [] := by
  refine ⟨by decide, by decide, by decide, by decide⟩

/-- C4 (amended): a refresh against an unchanged server (fetched timestamp
version not greater than remembered) leaves the persisted files and the
trust state unchanged — the timestamp file is rewritten with identical
bytes — performs only the timestamp fetch, re-assigns the (equal)
remembered version, but CLEARS the in-memory targets list instead of
keeping the previous refresh's list. -/
theorem C4_amended_targets_cleared (env : Env) (cfg : Cfg) (w : World)
    (h1 : (env.fetchJson "timestamp.json").signedPart.version ≤
      w.repo.timestampVersion)
    (h2 : (refresh env cfg w).1 = .ok ())
    (h3 : contains w.repo.thresholds
      (lowerStr (env.fetchJson "timestamp.json").signedPart.typ) = true)
    (h4 : lookup w.files (saveRolePath cfg
      (lowerStr (env.fetchJson "timestamp.json").signedPart.typ)) =
      some (env.render (env.fetchJson "timestamp.json"))) :
    (refresh env cfg w).2 =
      { w with
        repo := { w.repo with
                  targets := []
                  timestampVersion :=
                    (env.fetchJson "timestamp.json").signedPart.version }
        fetches := w.fetches ++ [Fetch.json "timestamp.json"] } := by
  rw [refresh_not_new env cfg w (not_lt.mpr h1)] at h2 ⊢
  rcases hv : verifyRole env cfg.name (env.fetchJson "timestamp.json")
      { w with repo := { w.repo with targets := [] },
               fetches := w.fetches ++ [Fetch.json "timestamp.json"] } with ⟨res, w1⟩
  rw [hv] at h2
  cases res with
  | error e => exact absurd h2 (by simp)
  | ok u =>
    have hw1 : w1 = { w with
        repo := { w.repo with targets := [] }
        fetches := w.fetches ++ [Fetch.json "timestamp.json"] } := by
      have hs := verifyRole_snd_of_contains env cfg.name
        (env.fetchJson "timestamp.json")
        { w with repo := { w.repo with targets := [] },
                 fetches := w.fetches ++ [Fetch.json "timestamp.json"] }
        h3 (by rw [hv])
      rw [hv] at hs
      exact hs
    subst hw1
    dsimp only [saveRole]
    rw [mapSet_self _ _ _ h4]

/-- C4, witness: the amended theorem applied at the world produced by the
first successful refresh of the C4 fixture. -/
theorem C4_witness :
    (envC4.fetchJson "timestamp.json").signedPart.version ≤
      (refresh envC4 cfgD wAll).2.repo.timestampVersion ∧
    (refresh envC4 cfgD (refresh envC4 cfgD wAll).2).1 = .ok () ∧
    (refresh envC4 cfgD (refresh envC4 cfgD wAll).2).2 =
      { (refresh envC4 cfgD wAll).2 with
        repo := { (refresh envC4 cfgD wAll).2.repo with
                  targets := []
                  timestampVersion :=
                    (envC4.fetchJson "timestamp.json").signedPart.version }
        fetches := ((refresh envC4 cfgD wAll).2.fetches ++
          [Fetch.json "timestamp.json"]) } :=
  ⟨by decide, by decide,
   C4_amended_targets_cleared envC4 cfgD (refresh envC4 cfgD wAll).2
     (by decide) (by decide) (by decide) (by decide)⟩

/-- C3, counterexample: a rotated root that validates under the keys it
itself declares (the `update_root` procedure accepts it) is REJECTED by
`refresh`, which verifies the fetched root under the pre-rotation trust
before ingesting its keys: `refresh` does not process the root with the
`update_root` procedure. -/
theorem C3_counterexample :
    (refresh envC3 cfgD wAll).1 =
      .error (.securityException "director" "Couldn't find a key: k2") ∧
    (updateRoot envC3 cfgD wAll).1 = .ok () := by
  refine ⟨by decide, by decide⟩

/-- C3 (amended): when a successful refresh sees `root.json` in the
validated snapshot's `meta`, it fetches the root right after the snapshot
and before any other listed role — verifying it under the current
(pre-rotation) trust, saving it, and only then ingesting its keys — and
`root.json` is removed from the remaining work list, so it is never
fetched again during that refresh. -/
theorem C3_amended_root_first (env : Env) (cfg : Cfg) (w : World)
    (h1 : w.repo.timestampVersion <
      (env.fetchJson "timestamp.json").signedPart.version)
    (h2 : (refresh env cfg w).1 = .ok ())
    (h3 : (env.fetchJson "snapshot.json").signedPart.meta.contains
      "root.json" = true) :
    ∃ rest, (refresh env cfg w).2.fetches =
      w.fetches ++ [Fetch.json "timestamp.json", Fetch.json "snapshot.json",
        Fetch.json "root.json"] ++ rest ∧
      Fetch.json "root.json" ∉ rest := by
  unfold refresh checkTimestamp at h2 ⊢
  rw [updateRole_eq] at h2 ⊢
  rcases hv : verifyRole env cfg.name (env.fetchJson "timestamp.json")
      { w with repo := { w.repo with targets := [] },
               fetches := w.fetches ++ [Fetch.json "timestamp.json"] } with ⟨res, w1⟩
  rw [hv] at h2
  have ht : w1.repo.timestampVersion = w.repo.timestampVersion := by
    have hh := (verifyRole_frame env cfg.name (env.fetchJson "timestamp.json")
      { w with repo := { w.repo with targets := [] },
               fetches := w.fetches ++ [Fetch.json "timestamp.json"] }).2.1
    rw [hv] at hh
    exact hh
  have hfet1 : w1.fetches = w.fetches ++ [Fetch.json "timestamp.json"] := by
    have hh := (verifyRole_frame env cfg.name (env.fetchJson "timestamp.json")
      { w with repo := { w.repo with targets := [] },
               fetches := w.fetches ++ [Fetch.json "timestamp.json"] }).2.2.2.2
    rw [hv] at hh
    exact hh
  cases res with
  | error e => exact absurd h2 (by simp)
  | ok u =>
    dsimp only [saveRole] at h2 ⊢
    rw [ht] at h2 ⊢
    rw [decide_eq_true h1] at h2 ⊢
    rw [if_pos rfl] at h2 ⊢
    obtain ⟨rest, hr1, hr2⟩ := snapshotStep_fetches env cfg _ h2 h3
    refine ⟨rest, ?_, hr2⟩
    rw [hr1]
    dsimp only
    rw [hfet1]
    simp [List.append_assoc]

/-- C3, witness: the amended theorem applied at the happy-rotation
fixture. -/
theorem C3_witness :
    wAll.repo.timestampVersion <
      (envC3w.fetchJson "timestamp.json").signedPart.version ∧
    (refresh envC3w cfgD wAll).1 = .ok () ∧
    (envC3w.fetchJson "snapshot.json").signedPart.meta.contains
      "root.json" = true ∧
    (∃ rest, (refresh envC3w cfgD wAll).2.fetches =
      wAll.fetches ++ [Fetch.json "timestamp.json", Fetch.json "snapshot.json",
        Fetch.json "root.json"] ++ rest ∧
      Fetch.json "root.json" ∉ rest) :=
  ⟨by decide, by decide, by decide,
   C3_amended_root_first envC3w cfgD wAll (by decide) (by decide) (by decide)⟩

end Uptane
